import Mathlib

/-!
Verification of the command/path security boundary of the kasm-mcp-server
repository, `src/security/roots.py` (`RootsValidator`).

Python strings are modelled as `List Char`; a resolved (canonical) path is a
list of path segments (`List Seg`), the empty list standing for the
filesystem root `/`.  `Path(s).resolve()` is modelled lexically: the string is
split on `/`, empty and `.` components are dropped, `..` pops a component
(as `os.path.realpath` does on paths that do not exist; symlink following
needs a filesystem and is therefore not modelled), a relative path is first
joined onto the process working directory `cwd`, and a string holding a NUL
byte makes resolution fail (CPython raises `ValueError: embedded null byte`),
modelled as `none`.  The process working directory is passed explicitly as a
`cwd : List Seg` parameter.
-/

deriving instance DecidableEq for Except

/-- A Python string: a list of characters. -/
abbrev PyStr := List Char

/-- One component of a resolved path. -/
abbrev Seg := List Char

/-- The NUL character, which CPython path calls reject. -/
def nulChar : Char := Char.ofNat 0

/-- `True` when the string holds a NUL byte, making `Path.resolve` raise. -/
def hasNul (s : PyStr) : Bool := s.any (fun c => c = nulChar)

/-- Split a string on `/`, exactly like Python `str.split("/")`
(so `""` yields `[""]` and `"/a"` yields `["", "a"]`). -/
def splitSlash : PyStr → List Seg
  | [] => [[]]
  | c :: rest =>
    if c = '/' then [] :: splitSlash rest
    else (c :: (splitSlash rest).headD []) :: (splitSlash rest).tail

/-- `True` when the path string is absolute (starts with `/`). -/
def isAbs (s : PyStr) : Bool := s.head? = some '/'

/-- One step of lexical resolution.  `acc` is the reversed stack of resolved
segments: empty and `.` components are dropped, `..` pops, anything else is
pushed. -/
def stepSeg (acc : List Seg) (part : Seg) : List Seg :=
  if part = [] then acc
  else if part = ['.'] then acc
  else if part = ['.', '.'] then acc.tail
  else part :: acc

/-- Resolve a list of raw components against an initial reversed stack. -/
def resolveSegs (init : List Seg) (parts : List Seg) : List Seg :=
  (parts.foldl stepSeg init).reverse

/-- Model of `Path(s).resolve()` relative to working directory `cwd`:
`none` when resolution raises (NUL byte), otherwise the canonical segment
list. -/
def resolve (cwd : List Seg) (s : PyStr) : Option (List Seg) :=
  if hasNul s then none
  else some (resolveSegs (if isAbs s then [] else cwd.reverse) (splitSlash s))

/-- Model of `str(path)` for a resolved path: `/` followed by the segments
joined with `/` (the root itself renders as `"/"`). -/
def joinSegs : List Seg → PyStr
  | [] => []
  | [s] => s
  | s :: r :: rest => s ++ '/' :: joinSegs (r :: rest)

/-- Render a canonical path back to its string form. -/
def render (segs : List Seg) : PyStr := '/' :: joinSegs segs

/-- `RootsValidator.is_path_allowed`: resolve the path and test whether the
segment list of some configured root is a (segment-aligned) prefix of it —
`PurePath.relative_to(root)` succeeds exactly when the root's parts are a
prefix of the target's parts.  Resolution failure yields `false`
(the `except` branch). -/
def is_path_allowed (roots : List (List Seg)) (cwd : List Seg) (path : PyStr) : Bool :=
  match resolve cwd path with
  | none => false
  | some t => roots.any (fun r => decide (r <+: t))

/-- The twelve dangerous substrings scanned by
`RootsValidator.validate_command`, in source order. -/
def dangerous_patterns : List PyStr :=
  [("../").data, ("/..").data, ("|").data, (";").data, ("&&").data,
   ("||").data, ("`").data, ("$(").data, ("$\x7b").data, (">>").data,
   (">").data, ("<").data]

/-- The first dangerous substring occurring in the command, if any
(the `for pattern in dangerous_patterns` loop raises at the first hit). -/
def findPattern (command : PyStr) : Option PyStr :=
  dangerous_patterns.find? (fun p => decide (p <:+: command))

/-- Reasons `validate_command` raises `SecurityError`. -/
inductive CmdError where
  | dangerousPattern (pat : PyStr)
  | workingDirOutside (wd : PyStr)
  deriving DecidableEq, Repr

/-- `RootsValidator.validate_command`: raise on the first dangerous
substring; then, when a *truthy* working directory is given (Python
`if working_dir:` is false for both `None` and `""`), raise unless it is
inside the roots. -/
def validate_command (roots : List (List Seg)) (cwd : List Seg)
    (command : PyStr) (working_dir : Option PyStr) : Except CmdError Unit :=
  match findPattern command with
  | some p => .error (.dangerousPattern p)
  | none =>
    match working_dir with
    | none => .ok ()
    | some wd =>
      if wd = [] then .ok ()
      else if is_path_allowed roots cwd wd then .ok ()
      else .error (.workingDirOutside wd)

/-- Reasons `validate_file_operation` raises `SecurityError`. -/
inductive FileError where
  | outsideRoots (path : PyStr)
  | sensitiveWrite (path : PyStr)
  deriving DecidableEq, Repr

/-- The `sensitive_paths` list of `validate_file_operation`, in source
order. -/
def sensitive_paths : List PyStr :=
  [("/etc").data, ("/usr").data, ("/bin").data, ("/sbin").data,
   ("/lib").data, ("/proc").data, ("/sys").data, ("/dev").data,
   (".ssh").data, (".gnupg").data]

/-- The source's sensitive test on the rendered resolved path:
`path_str.startswith(sensitive) or f"/{sensitive}/" in path_str`. -/
def sensitiveHit (path_str : PyStr) : Bool :=
  sensitive_paths.any
    (fun s => s.isPrefixOf path_str || decide (('/' :: s ++ ['/']) <:+: path_str))

/-- `RootsValidator.validate_file_operation`: deny when the path is outside
every root (this is also what happens when resolution fails, since
`is_path_allowed` then returns `False`); for `operation = "write"`
additionally deny when the rendered resolved path trips the sensitive
test. -/
def validate_file_operation (roots : List (List Seg)) (cwd : List Seg)
    (file_path : PyStr) (operation : PyStr) : Except FileError Unit :=
  match resolve cwd file_path with
  | none => .error (.outsideRoots file_path)
  | some t =>
    if roots.any (fun r => decide (r <+: t)) then
      if operation = ("write").data then
        if sensitiveHit (render t) then .error (.sensitiveWrite file_path)
        else .ok ()
      else .ok ()
    else .error (.outsideRoots file_path)

/-- `RootsValidator.get_safe_path`: resolve, then re-check the *rendered*
string with `is_path_allowed` (the source calls
`self.is_path_allowed(str(resolved_path))`); return the rendered string on
success, `None` otherwise (also on resolution failure). -/
def get_safe_path (roots : List (List Seg)) (cwd : List Seg)
    (path : PyStr) : Option PyStr :=
  match resolve cwd path with
  | none => none
  | some t =>
    if is_path_allowed roots cwd (render t) then some (render t) else none

/-- Model of the Python `set` of roots: insertion leaves the list unchanged
when the element is already present. -/
def insertRoot (roots : List (List Seg)) (t : List Seg) : List (List Seg) :=
  if t ∈ roots then roots else roots ++ [t]

/-- `RootsValidator.add_root`: resolve and `set.add`; returns the new root
set together with the returned boolean (`True` unless resolution raised). -/
def add_root (roots : List (List Seg)) (cwd : List Seg)
    (root : PyStr) : List (List Seg) × Bool :=
  match resolve cwd root with
  | none => (roots, false)
  | some t => (insertRoot roots t, true)

/-- `RootsValidator.__init__`: resolve each configured root and insert it
into the set, skipping the ones whose resolution raises. -/
def mk_roots (cwd : List Seg) (allowed_roots : List String) : List (List Seg) :=
  allowed_roots.foldl
    (fun acc r =>
      match resolve cwd r.data with
      | none => acc
      | some t => insertRoot acc t)
    []

/-- The canonical segment form of a concrete path string (resolution taken
against the filesystem root), used to spell out concrete test paths. -/
def canon0 (s : String) : List Seg := (resolve [] s.data).getD []

/-- Root set `["/home/kasm-user"]` used by the spec's concrete examples. -/
def rootsKU : List (List Seg) := mk_roots [] ["/home/kasm-user"]

/-- A canonical path segment: nonempty, not `.` or `..`, and free of `/` and
NUL.  Resolution only ever produces segments of this shape. -/
def segOk (s : Seg) : Prop :=
  s ≠ [] ∧ s ≠ ['.'] ∧ s ≠ ['.', '.'] ∧ '/' ∉ s ∧ nulChar ∉ s

instance (s : Seg) : Decidable (segOk s) := by unfold segOk; infer_instance

/-- Whether a string holds two consecutive slashes. -/
def hasDS : List Char → Bool
  | a :: b :: rest => if a = '/' ∧ b = '/' then true else hasDS (b :: rest)
  | _ => false

/-- The eight absolute sensitive path roots listed by the claim, in source
order (the source's list additionally holds `.ssh` and `.gnupg`). -/
def abs_sensitive : List PyStr :=
  [("/etc").data, ("/usr").data, ("/bin").data, ("/sbin").data,
   ("/lib").data, ("/proc").data, ("/sys").data, ("/dev").data]

/-- The substring marking a `.ssh` directory segment. -/
def sshSeg : PyStr := '/' :: (".ssh").data ++ ['/']

/-- The substring marking a `.gnupg` directory segment. -/
def gnupgSeg : PyStr := '/' :: (".gnupg").data ++ ['/']

/-- The claim's description of the sensitive-write condition: the rendered
resolved path falls under one of the eight fixed sensitive prefixes, or
holds a `.ssh` or `.gnupg` directory segment. -/
def ClaimSensitive (p : PyStr) : Prop :=
  (∃ s ∈ abs_sensitive, s <+: p) ∨ sshSeg <:+: p ∨ gnupgSeg <:+: p

instance (p : PyStr) : Decidable (ClaimSensitive p) := by
  unfold ClaimSensitive; infer_instance

theorem splitSlash_ne_nil (s : PyStr) : splitSlash s ≠ [] := by
  induction s with
  | nil => simp [splitSlash]
  | cons c rest ih =>
    simp only [splitSlash]
    split <;> simp

theorem mem_splitSlash {s : PyStr} {p : Seg} (hp : p ∈ splitSlash s) :
    ∀ c ∈ p, c ≠ '/' ∧ c ∈ s := by
  induction s generalizing p with
  | nil =>
    simp only [splitSlash, List.mem_singleton] at hp
    subst hp; simp
  | cons a rest ih =>
    simp only [splitSlash] at hp
    by_cases ha : a = '/'
    · rw [if_pos ha] at hp
      rcases List.mem_cons.mp hp with h | h
      · subst h; simp
      · intro c hc
        obtain ⟨h1, h2⟩ := ih h c hc
        exact ⟨h1, List.mem_cons_of_mem _ h2⟩
    · rw [if_neg ha] at hp
      obtain ⟨s0, ss, hr⟩ := List.exists_cons_of_ne_nil (splitSlash_ne_nil rest)
      rw [hr] at hp
      simp only [List.headD_cons, List.tail_cons] at hp
      rcases List.mem_cons.mp hp with h | h
      · subst h
        intro c hc
        rcases List.mem_cons.mp hc with h | h
        · subst h; exact ⟨ha, List.mem_cons_self _ _⟩
        · obtain ⟨h1, h2⟩ := ih (by rw [hr]; exact List.mem_cons_self s0 ss) c h
          exact ⟨h1, List.mem_cons_of_mem _ h2⟩
      · intro c hc
        obtain ⟨h1, h2⟩ := ih (by rw [hr]; exact List.mem_cons_of_mem s0 h) c hc
        exact ⟨h1, List.mem_cons_of_mem _ h2⟩

theorem segOk_of_stepSeg {acc : List Seg} {p : Seg}
    (hacc : ∀ a ∈ acc, segOk a) (hp : '/' ∉ p ∧ nulChar ∉ p) :
    ∀ a ∈ stepSeg acc p, segOk a := by
  unfold stepSeg
  split_ifs with h1 h2 h3
  · exact hacc
  · exact hacc
  · exact fun a ha => hacc a (List.mem_of_mem_tail ha)
  · intro a ha
    rcases List.mem_cons.mp ha with h | h
    · subst h; exact ⟨h1, h2, h3, hp.1, hp.2⟩
    · exact hacc a h

theorem segOk_of_foldl {parts : List Seg} :
    ∀ {acc : List Seg}, (∀ a ∈ acc, segOk a) →
    (∀ p ∈ parts, '/' ∉ p ∧ nulChar ∉ p) →
    ∀ a ∈ parts.foldl stepSeg acc, segOk a := by
  induction parts with
  | nil => intro acc hacc _ a ha; exact hacc a ha
  | cons p parts ih =>
    intro acc hacc hparts a ha
    rw [List.foldl_cons] at ha
    exact ih (segOk_of_stepSeg hacc (hparts p (List.mem_cons_self _ _)))
      (fun q hq => hparts q (List.mem_cons_of_mem _ hq)) a ha

/-- Resolution only produces canonical segments. -/
theorem resolve_segOk {cwd : List Seg} {s : PyStr} {t : List Seg}
    (hcwd : ∀ a ∈ cwd, segOk a) (h : resolve cwd s = some t) :
    ∀ a ∈ t, segOk a := by
  unfold resolve at h
  by_cases hn : hasNul s = true
  · rw [if_pos hn] at h; exact absurd h (by simp)
  · rw [if_neg hn] at h
    obtain rfl := Option.some.inj h
    unfold resolveSegs
    intro a ha
    rw [List.mem_reverse] at ha
    refine segOk_of_foldl ?_ ?_ a ha
    · split_ifs with habs
      · simp
      · intro b hb
        exact hcwd b (List.mem_reverse.mp hb)
    · intro p hp
      have h2 := mem_splitSlash hp
      refine ⟨fun hc => (h2 '/' hc).1 rfl, fun hc => ?_⟩
      apply hn
      unfold hasNul
      rw [List.any_eq_true]
      exact ⟨nulChar, (h2 nulChar hc).2, by simp⟩

theorem mem_joinSegs {t : List Seg} {c : Char} (hc : c ∈ joinSegs t) :
    c = '/' ∨ ∃ a ∈ t, c ∈ a := by
  induction t with
  | nil => simp [joinSegs] at hc
  | cons s rest ih =>
    cases rest with
    | nil =>
      simp only [joinSegs] at hc
      exact Or.inr ⟨s, List.mem_cons_self _ _, hc⟩
    | cons r rest' =>
      simp only [joinSegs] at hc
      rcases List.mem_append.mp hc with h | h
      · exact Or.inr ⟨s, List.mem_cons_self _ _, h⟩
      · rcases List.mem_cons.mp h with h | h
        · exact Or.inl h
        · rcases ih h with h | ⟨a, ha, hca⟩
          · exact Or.inl h
          · exact Or.inr ⟨a, List.mem_cons_of_mem _ ha, hca⟩

theorem hasNul_render {t : List Seg} (h : ∀ a ∈ t, nulChar ∉ a) :
    hasNul (render t) = false := by
  rw [Bool.eq_false_iff]
  intro hn
  unfold hasNul at hn
  rw [List.any_eq_true] at hn
  obtain ⟨c, hc, he⟩ := hn
  have hc' : c = nulChar := by simpa using he
  subst hc'
  unfold render at hc
  rcases List.mem_cons.mp hc with h' | h'
  · exact absurd h' (by decide)
  · rcases mem_joinSegs h' with h' | ⟨a, ha, hca⟩
    · exact absurd h' (by decide)
    · exact h a ha hca

theorem isAbs_render (t : List Seg) : isAbs (render t) = true := by
  simp [isAbs, render]

theorem splitSlash_noslash {s : PyStr} (h : ∀ c ∈ s, c ≠ '/') :
    splitSlash s = [s] := by
  induction s with
  | nil => rfl
  | cons c rest ih =>
    simp only [splitSlash]
    rw [if_neg (h c (List.mem_cons_self _ _))]
    rw [ih (fun d hd => h d (List.mem_cons_of_mem _ hd))]
    simp

theorem splitSlash_sep {s : PyStr} (x : PyStr) (h : ∀ c ∈ s, c ≠ '/') :
    splitSlash (s ++ '/' :: x) = s :: splitSlash x := by
  induction s with
  | nil => simp [splitSlash]
  | cons c s' ih =>
    simp only [List.cons_append, splitSlash, List.append_eq]
    rw [if_neg (h c (List.mem_cons_self _ _))]
    rw [ih (fun d hd => h d (List.mem_cons_of_mem _ hd))]
    simp

theorem splitSlash_join {t : List Seg} (hne : t ≠ [])
    (h : ∀ a ∈ t, a ≠ [] ∧ '/' ∉ a) :
    splitSlash (joinSegs t) = t := by
  induction t with
  | nil => exact absurd rfl hne
  | cons s rest ih =>
    cases rest with
    | nil =>
      simp only [joinSegs]
      exact splitSlash_noslash
        (fun c hc he => (h s (List.mem_cons_self _ _)).2 (he ▸ hc))
    | cons r rest' =>
      simp only [joinSegs]
      rw [splitSlash_sep _ (fun c hc he => (h s (List.mem_cons_self _ _)).2 (he ▸ hc))]
      rw [ih (by simp) (fun a ha => h a (List.mem_cons_of_mem _ ha))]

theorem foldl_stepSeg_push {t : List Seg}
    (h : ∀ a ∈ t, a ≠ [] ∧ a ≠ ['.'] ∧ a ≠ ['.', '.']) :
    ∀ acc, t.foldl stepSeg acc = t.reverse ++ acc := by
  induction t with
  | nil => intro acc; simp
  | cons s rest ih =>
    intro acc
    rw [List.foldl_cons]
    have hs := h s (List.mem_cons_self _ _)
    rw [show stepSeg acc s = s :: acc by
      unfold stepSeg; rw [if_neg hs.1, if_neg hs.2.1, if_neg hs.2.2]]
    rw [ih (fun a ha => h a (List.mem_cons_of_mem _ ha))]
    simp

/-- Resolving the rendered form of a canonical path gives the path back:
canonicalization is idempotent. -/
theorem resolve_render {t : List Seg} (cwd : List Seg)
    (h : ∀ a ∈ t, segOk a) : resolve cwd (render t) = some t := by
  unfold resolve
  rw [if_neg (by
    rw [hasNul_render (fun a ha => (h a ha).2.2.2.2)]; simp)]
  rw [show isAbs (render t) = true from isAbs_render t]
  simp only [if_pos]
  unfold render
  rw [show splitSlash ('/' :: joinSegs t) = [] :: splitSlash (joinSegs t) by
    simp [splitSlash]]
  cases hte : t with
  | nil => rfl
  | cons s rest =>
    rw [← hte, splitSlash_join (by rw [hte]; simp)
      (fun a ha => ⟨(h a ha).1, (h a ha).2.2.2.1⟩)]
    unfold resolveSegs
    rw [List.foldl_cons]
    rw [show stepSeg [] [] = [] by rfl]
    rw [foldl_stepSeg_push (fun a ha => ⟨(h a ha).1, (h a ha).2.1, (h a ha).2.2.1⟩)]
    simp

/-- `is_path_allowed` on the rendered form of a canonical path is the plain
root-prefix test. -/
theorem is_path_allowed_render (roots : List (List Seg)) (cwd : List Seg)
    {t : List Seg} (h : ∀ a ∈ t, segOk a) :
    is_path_allowed roots cwd (render t) = roots.any (fun r => decide (r <+: t)) := by
  unfold is_path_allowed
  rw [resolve_render cwd h]

theorem hasDS_of_ds : ∀ {l : List Char}, ('/' :: '/' :: []) <:+: l → hasDS l = true := by
  intro l
  induction l with
  | nil => intro h; simp at h
  | cons a l ih =>
    intro h
    rcases List.infix_cons_iff.mp h with hpre | hinf
    · obtain ⟨rfl, h2⟩ := List.cons_prefix_cons.mp hpre
      obtain ⟨t2, rfl⟩ := h2
      show hasDS ('/' :: '/' :: t2) = true
      rw [hasDS]
      simp
    · have hl := ih hinf
      cases l with
      | nil => simp [hasDS] at hl
      | cons b l' =>
        show hasDS (a :: b :: l') = true
        rw [hasDS]
        split_ifs with hab
        · rfl
        · exact hl

theorem slashFree_hasDS {s : List Char} (h : ∀ c ∈ s, c ≠ '/') :
    ∀ tl, hasDS (s ++ tl) = hasDS tl := by
  induction s with
  | nil => simp
  | cons c s' ih =>
    intro tl
    rcases hs : s' ++ tl with _ | ⟨b, rest⟩
    · obtain ⟨h1, h2⟩ := List.append_eq_nil.mp hs
      subst h1; subst h2
      simp [hasDS]
    · show hasDS (c :: (s' ++ tl)) = hasDS tl
      rw [hs, hasDS]
      rw [if_neg (by
        rintro ⟨hc, -⟩
        exact h c (List.mem_cons_self _ _) hc)]
      rw [← hs, ih (fun d hd => h d (List.mem_cons_of_mem _ hd))]

theorem render_hasDS {t : List Seg} (h : ∀ a ∈ t, segOk a) :
    hasDS (render t) = false := by
  unfold render
  induction t with
  | nil => rfl
  | cons s rest ih =>
    have hs := h s (List.mem_cons_self _ _)
    obtain ⟨c, s', rfl⟩ := List.exists_cons_of_ne_nil hs.1
    have hcs : ∀ d ∈ c :: s', d ≠ '/' := fun d hd he => hs.2.2.2.1 (he ▸ hd)
    cases rest with
    | nil =>
      show hasDS ('/' :: joinSegs [c :: s']) = false
      simp only [joinSegs]
      rw [hasDS, if_neg (by rintro ⟨-, hc⟩; exact hcs c (List.mem_cons_self _ _) hc)]
      have := slashFree_hasDS (s := c :: s') hcs []
      rw [List.append_nil] at this
      rw [this]; rfl
    | cons r rest' =>
      show hasDS ('/' :: joinSegs ((c :: s') :: r :: rest')) = false
      simp only [joinSegs]
      rw [show (('/' : Char) :: ((c :: s') ++ '/' :: joinSegs (r :: rest'))) =
        ('/' :: c :: (s' ++ '/' :: joinSegs (r :: rest'))) by simp]
      rw [hasDS, if_neg (by rintro ⟨-, hc⟩; exact hcs c (List.mem_cons_self _ _) hc)]
      rw [show (c :: (s' ++ '/' :: joinSegs (r :: rest'))) =
        ((c :: s') ++ '/' :: joinSegs (r :: rest')) by simp]
      rw [slashFree_hasDS hcs]
      exact ih (fun a ha => h a (List.mem_cons_of_mem _ ha))

/-- No string that itself starts with a double slash occurs inside the
rendering of a canonical path. -/
theorem not_ds_in_render {t : List Seg} (h : ∀ a ∈ t, segOk a)
    {x : List Char} (hx : ('/' :: '/' :: []) <+: x) : ¬ x <:+: render t := by
  intro hin
  obtain ⟨x2, rfl⟩ := hx
  obtain ⟨pre, post, hpp⟩ := hin
  have : ('/' :: '/' :: []) <:+: render t :=
    ⟨pre, x2 ++ post, by rw [← hpp]; simp⟩
  have hds := hasDS_of_ds this
  rw [render_hasDS h] at hds
  exact Bool.false_ne_true hds

theorem sensitive_paths_eq :
    sensitive_paths = abs_sensitive ++ [(".ssh").data, (".gnupg").data] := by rfl

theorem abs_sensitive_ds :
    ∀ s ∈ abs_sensitive, ('/' :: '/' :: []) <+: ('/' :: s ++ ['/']) := by decide

theorem dotPre_render (x : PyStr) (t : List Seg) :
    (('.' :: x).isPrefixOf (render t)) = false := by
  rw [Bool.eq_false_iff]
  intro hp
  have hp' : ('.' :: x) <+: render t := List.isPrefixOf_iff_prefix.mp hp
  rw [render] at hp'
  obtain ⟨he, -⟩ := List.cons_prefix_cons.mp hp'
  exact absurd he (by decide)

theorem ssh_notPre (t : List Seg) :
    ((".ssh").data.isPrefixOf (render t)) = false := by
  rw [show (".ssh").data = '.' :: ("ssh").data from rfl]
  exact dotPre_render _ t

theorem gnupg_notPre (t : List Seg) :
    ((".gnupg").data.isPrefixOf (render t)) = false := by
  rw [show (".gnupg").data = '.' :: ("gnupg").data from rfl]
  exact dotPre_render _ t

/-- On the rendering of a canonical path the source's sensitive test agrees
exactly with the claim's description: the `startswith(".ssh")` and
`startswith(".gnupg")` arms can never fire (a rendered path starts with
`/`), and the `"/{s}/"`-containment arms for the eight absolute entries can
never fire (a canonical rendering has no double slash). -/
theorem sensitiveHit_claim {t : List Seg} (h : ∀ a ∈ t, segOk a) :
    sensitiveHit (render t) = true ↔ ClaimSensitive (render t) := by
  constructor
  · intro hs
    unfold sensitiveHit at hs
    rw [List.any_eq_true] at hs
    obtain ⟨s, hmem, hpred⟩ := hs
    rw [sensitive_paths_eq, List.mem_append] at hmem
    rcases hmem with habs | hdot
    · rcases (Bool.or_eq_true _ _).mp hpred with h1 | h2
      · exact Or.inl ⟨s, habs, List.isPrefixOf_iff_prefix.mp h1⟩
      · exact absurd (of_decide_eq_true h2)
          (not_ds_in_render h (abs_sensitive_ds s habs))
    · have hdot' : s = (".ssh").data ∨ s = (".gnupg").data := by
        simpa using hdot
      rcases hdot' with rfl | rfl
      · rcases (Bool.or_eq_true _ _).mp hpred with h1 | h2
        · rw [ssh_notPre t] at h1; exact absurd h1 (by simp)
        · exact Or.inr (Or.inl (of_decide_eq_true h2))
      · rcases (Bool.or_eq_true _ _).mp hpred with h1 | h2
        · rw [gnupg_notPre t] at h1; exact absurd h1 (by simp)
        · exact Or.inr (Or.inr (of_decide_eq_true h2))
  · intro hc
    unfold sensitiveHit
    rw [List.any_eq_true]
    rcases hc with ⟨s, hmem, hpre⟩ | hin | hin
    · refine ⟨s, ?_, ?_⟩
      · rw [sensitive_paths_eq, List.mem_append]; exact Or.inl hmem
      · rw [Bool.or_eq_true]
        exact Or.inl (List.isPrefixOf_iff_prefix.mpr hpre)
    · refine ⟨(".ssh").data, by rw [sensitive_paths_eq]; simp, ?_⟩
      rw [Bool.or_eq_true]
      exact Or.inr (decide_eq_true hin)
    · refine ⟨(".gnupg").data, by rw [sensitive_paths_eq]; simp, ?_⟩
      rw [Bool.or_eq_true]
      exact Or.inr (decide_eq_true hin)

theorem is_path_allowed_eq_none {roots : List (List Seg)} {cwd : List Seg} {p : PyStr}
    (hres : resolve cwd p = none) : is_path_allowed roots cwd p = false := by
  unfold is_path_allowed; rw [hres]

theorem is_path_allowed_eq_some {roots : List (List Seg)} {cwd : List Seg}
    {p : PyStr} {t : List Seg} (hres : resolve cwd p = some t) :
    is_path_allowed roots cwd p = roots.any (fun r => decide (r <+: t)) := by
  unfold is_path_allowed; rw [hres]

theorem vc_pattern {roots : List (List Seg)} {cwd : List Seg} {command p : PyStr}
    {wd : Option PyStr} (hp : findPattern command = some p) :
    validate_command roots cwd command wd = .error (.dangerousPattern p) := by
  unfold validate_command; rw [hp]

theorem vc_none_noWd {roots : List (List Seg)} {cwd : List Seg} {command : PyStr}
    (hp : findPattern command = none) :
    validate_command roots cwd command none = .ok () := by
  unfold validate_command; rw [hp]

theorem vc_none_someWd {roots : List (List Seg)} {cwd : List Seg}
    {command : PyStr} {w : PyStr} (hp : findPattern command = none) :
    validate_command roots cwd command (some w) =
      (if w = [] then .ok ()
       else if is_path_allowed roots cwd w then .ok ()
       else .error (.workingDirOutside w)) := by
  unfold validate_command; rw [hp]

theorem vfo_eq_none {roots : List (List Seg)} {cwd : List Seg} {p op : PyStr}
    (hres : resolve cwd p = none) :
    validate_file_operation roots cwd p op = .error (.outsideRoots p) := by
  unfold validate_file_operation; rw [hres]

theorem vfo_eq_some {roots : List (List Seg)} {cwd : List Seg} {p op : PyStr}
    {t : List Seg} (hres : resolve cwd p = some t) :
    validate_file_operation roots cwd p op =
      (if roots.any (fun r => decide (r <+: t)) then
        (if op = ("write").data then
          (if sensitiveHit (render t) then .error (.sensitiveWrite p) else .ok ())
         else .ok ())
       else .error (.outsideRoots p)) := by
  unfold validate_file_operation; rw [hres]

theorem gsp_none {roots : List (List Seg)} {cwd : List Seg} {p : PyStr}
    (hres : resolve cwd p = none) : get_safe_path roots cwd p = none := by
  unfold get_safe_path; rw [hres]

theorem gsp_some {roots : List (List Seg)} {cwd : List Seg} {p : PyStr}
    {t : List Seg} (hres : resolve cwd p = some t) :
    get_safe_path roots cwd p =
      (if is_path_allowed roots cwd (render t) then some (render t) else none) := by
  unfold get_safe_path; rw [hres]

/-- C1 (code evaluation at the failing input): contrary to the claim — and
to the repository's own test `test_validate_command_blocks_dangerous`,
which demands a `SecurityError` — `validate_command("sudo rm -rf /")`
raises nothing, for every root set and working directory: the source has no
hard-blocked command set at all and `"sudo rm -rf /"` holds none of the
twelve dangerous substrings. -/
theorem sudo_command_not_blocked :
    ∀ (roots : List (List Seg)) (cwd : List Seg),
      validate_command roots cwd ("sudo rm -rf /").data none = .ok () :=
  fun _ _ => vc_none_noWd (by decide)

/-- C2 (code evaluation at the failing inputs): contrary to the claim — and
to the repository's own test, which demands a `SecurityError` for
`chmod 777 /etc/passwd` — commands referencing `/etc/shadow` or
`/etc/passwd` raise nothing for every root set: the source scans only the
twelve fixed substrings and has no sensitive-file patterns. -/
theorem sensitive_file_commands_not_blocked :
    ∀ (roots : List (List Seg)) (cwd : List Seg),
      validate_command roots cwd ("cat /etc/shadow").data none = .ok () ∧
      validate_command roots cwd ("chmod 777 /etc/passwd").data none = .ok () :=
  fun _ _ => ⟨vc_none_noWd (by decide), vc_none_noWd (by decide)⟩

/-- C3 counterexample: with roots `["/home/kasm-user"]` the absolute path
`/etc/hostname` is outside every root, it appears as the operand of the
file-reading verb `cat`, yet `validate_command "cat /etc/hostname"` is
allowed — the source extracts no path operands from the command text. -/
theorem path_operand_outside_roots_allowed_cex :
    is_path_allowed rootsKU [] ("/etc/hostname").data = false ∧
    validate_command rootsKU [] ("cat /etc/hostname").data none = .ok () := by
  exact ⟨by decide, by decide⟩

/-- C3 amended: `validate_command` performs no extraction of file-path
operands whatsoever: with no working directory supplied, every command free
of the twelve dangerous substrings is allowed, whatever absolute paths its
text mentions and wherever they lie relative to the roots. -/
theorem validate_command_no_operand_check :
    ∀ (roots : List (List Seg)) (cwd : List Seg) (command : PyStr),
      findPattern command = none →
      validate_command roots cwd command none = .ok () :=
  fun _ _ _ hp => vc_none_noWd hp

/-- Witness for C3's amended theorem at the concrete command
`cat /etc/hostname`. -/
theorem validate_command_no_operand_check_witness :
    findPattern ("cat /etc/hostname").data = none ∧
    validate_command rootsKU [] ("cat /etc/hostname").data none = .ok () :=
  ⟨by decide, validate_command_no_operand_check rootsKU [] _ (by decide)⟩

/-- C4: `is_path_allowed` is true exactly when the path resolves and some
configured root's segment list is a segment-aligned prefix of (i.e. equals
or is an ancestor of) the resolved segment list — `Path.relative_to`
succeeds exactly on part-aligned prefixes, so `/home/kasm-user/x` is inside
root `/home/kasm-user` while `/home/kasm-user2/x` is not. -/
theorem is_path_allowed_spec :
    (∀ (roots : List (List Seg)) (cwd : List Seg) (p : PyStr),
      is_path_allowed roots cwd p = true ↔
        ∃ t, resolve cwd p = some t ∧ ∃ r ∈ roots, r <+: t) ∧
    is_path_allowed rootsKU [] ("/home/kasm-user/x").data = true ∧
    is_path_allowed rootsKU [] ("/home/kasm-user2/x").data = false := by
  refine ⟨?_, by decide, by decide⟩
  intro roots cwd p
  unfold is_path_allowed
  cases hres : resolve cwd p with
  | none => simp
  | some t => simp [List.any_eq_true]

/-- C5: `validate_file_operation` denies with `PathOutsideRoots` every path
not contained in the roots, for any operation; for `write` it additionally
denies with `SensitiveWriteTarget` exactly the in-root paths whose resolved
form falls under one of the eight fixed sensitive prefixes or holds a
`.ssh`/`.gnupg` directory segment; every other in-root operation succeeds.
The spec's three concrete examples are included. -/
theorem validate_file_operation_spec :
    (∀ (roots : List (List Seg)) (cwd : List Seg) (p op : PyStr),
      is_path_allowed roots cwd p = false →
      validate_file_operation roots cwd p op = .error (.outsideRoots p)) ∧
    (∀ (roots : List (List Seg)) (cwd : List Seg) (p : PyStr) (t : List Seg),
      (∀ a ∈ cwd, segOk a) → resolve cwd p = some t →
      is_path_allowed roots cwd p = true →
      (ClaimSensitive (render t) →
        validate_file_operation roots cwd p (("write").data) =
          .error (.sensitiveWrite p)) ∧
      (¬ ClaimSensitive (render t) →
        validate_file_operation roots cwd p (("write").data) = .ok ())) ∧
    (∀ (roots : List (List Seg)) (cwd : List Seg) (p op : PyStr),
      op ≠ ("write").data → is_path_allowed roots cwd p = true →
      validate_file_operation roots cwd p op = .ok ()) ∧
    validate_file_operation rootsKU [] ("/home/kasm-user/.ssh/authorized_keys").data
      (("write").data) =
      .error (.sensitiveWrite ("/home/kasm-user/.ssh/authorized_keys").data) ∧
    validate_file_operation rootsKU [] ("/root/.bashrc").data (("read").data) =
      .error (.outsideRoots ("/root/.bashrc").data) ∧
    validate_file_operation rootsKU [] ("/home/kasm-user/notes.txt").data
      (("write").data) = .ok () := by
  refine ⟨?_, ?_, ?_, by decide, by decide, by decide⟩
  · intro roots cwd p op hfalse
    cases hres : resolve cwd p with
    | none => exact vfo_eq_none hres
    | some t =>
      rw [vfo_eq_some hres]
      rw [is_path_allowed_eq_some hres] at hfalse
      rw [if_neg (by rw [hfalse]; exact Bool.false_ne_true)]
  · intro roots cwd p t hcwd hres htrue
    rw [is_path_allowed_eq_some hres] at htrue
    have hOk := resolve_segOk hcwd hres
    constructor
    · intro hsens
      rw [vfo_eq_some hres, if_pos htrue, if_pos rfl,
        if_pos ((sensitiveHit_claim hOk).mpr hsens)]
    · intro hsens
      rw [vfo_eq_some hres, if_pos htrue, if_pos rfl,
        if_neg (show ¬ sensitiveHit (render t) = true from
          fun hh => hsens ((sensitiveHit_claim hOk).mp hh))]
  · intro roots cwd p op hop htrue
    cases hres : resolve cwd p with
    | none =>
      rw [is_path_allowed_eq_none hres] at htrue
      exact absurd htrue (by simp)
    | some t =>
      rw [is_path_allowed_eq_some hres] at htrue
      rw [vfo_eq_some hres, if_pos htrue, if_neg hop]

/-- Witness for C5 at the spec's sensitive example: a write to
`/home/kasm-user/.ssh/authorized_keys` inside the allowed root
`/home/kasm-user` is denied as a sensitive write. -/
theorem validate_file_operation_spec_witness :
    validate_file_operation rootsKU [] ("/home/kasm-user/.ssh/authorized_keys").data
      (("write").data) =
      .error (.sensitiveWrite ("/home/kasm-user/.ssh/authorized_keys").data) :=
  (validate_file_operation_spec.2.1 rootsKU []
    ("/home/kasm-user/.ssh/authorized_keys").data
    (canon0 "/home/kasm-user/.ssh/authorized_keys")
    (by decide) (by decide) (by decide)).1 (by decide)

/-- C6 counterexample: the claim's "if and only if" fails for an *empty*
working directory: `working_dir = ""` is supplied and (with the process
working directory at `/`) lies outside the roots, yet the command is
allowed — Python `if working_dir:` treats the empty string like `None` and
skips the containment check. -/
theorem validate_command_empty_wd_cex :
    findPattern ("echo hi").data = none ∧
    is_path_allowed rootsKU [] [] = false ∧
    validate_command rootsKU [] ("echo hi").data (some []) = .ok () := by
  exact ⟨by decide, by decide, by decide⟩

/-- C6 amended: `validate_command` raises exactly when the command text
holds one of the twelve fixed substrings, or a *non-empty* working
directory outside the roots is supplied (an empty working directory is
falsy in Python and is never checked); in particular the benign in-root
redirect `echo hi > /home/kasm-user/f.txt` is always denied, with the `>`
pattern reported. -/
theorem validate_command_raises_iff :
    (∀ (roots : List (List Seg)) (cwd : List Seg) (command : PyStr)
        (wd : Option PyStr),
      (∃ e, validate_command roots cwd command wd = .error e) ↔
        ((∃ p ∈ dangerous_patterns, p <:+: command) ∨
         (∃ w, wd = some w ∧ w ≠ [] ∧ is_path_allowed roots cwd w = false))) ∧
    (∀ (roots : List (List Seg)) (cwd : List Seg),
      validate_command roots cwd ("echo hi > /home/kasm-user/f.txt").data none =
        .error (.dangerousPattern (">").data)) := by
  constructor
  · intro roots cwd command wd
    cases hfp : findPattern command with
    | some p =>
      have hmem := List.mem_of_find?_eq_some hfp
      have hinf : p <:+: command := by
        have := List.find?_some hfp
        exact of_decide_eq_true this
      constructor
      · intro _; exact Or.inl ⟨p, hmem, hinf⟩
      · intro _; exact ⟨_, vc_pattern hfp⟩
    | none =>
      have hno : ¬ ∃ p ∈ dangerous_patterns, p <:+: command := by
        rintro ⟨p, hmem, hinf⟩
        have := List.find?_eq_none.mp hfp p hmem
        exact this (decide_eq_true hinf)
      cases wd with
      | none =>
        rw [vc_none_noWd hfp]
        simp only [iff_iff_implies_and_implies]
        constructor
        · rintro ⟨e, he⟩; exact absurd he (by simp)
        · rintro (h | ⟨w, hw, -⟩)
          · exact absurd h hno
          · exact absurd hw (by simp)
      | some w =>
        rw [vc_none_someWd hfp]
        by_cases hw : w = []
        · rw [if_pos hw]
          constructor
          · rintro ⟨e, he⟩; exact absurd he (by simp)
          · rintro (h | ⟨w', hw', hne, -⟩)
            · exact absurd h hno
            · rw [Option.some.injEq] at hw'
              exact absurd (hw' ▸ hw) hne
        · rw [if_neg hw]
          by_cases hal : is_path_allowed roots cwd w = true
          · rw [if_pos hal]
            constructor
            · rintro ⟨e, he⟩; exact absurd he (by simp)
            · rintro (h | ⟨w', hw', -, hf⟩)
              · exact absurd h hno
              · rw [Option.some.injEq] at hw'
                rw [← hw'] at hf
                rw [hal] at hf
                exact absurd hf (by simp)
          · rw [if_neg (by simpa using hal)]
            constructor
            · intro _
              exact Or.inr ⟨w, rfl, hw, Bool.eq_false_iff.mpr hal⟩
            · intro _; exact ⟨_, rfl⟩
  · intro roots cwd
    exact vc_pattern (by decide)

/-- C7: the validator fails closed on a path whose resolution raises (a
malformed path, e.g. one holding a NUL byte): `is_path_allowed` is false,
`validate_file_operation` denies for every operation, `get_safe_path`
returns absence, and a working directory that fails to resolve makes
`validate_command` deny (for any command free of dangerous substrings);
resolution failure is never treated as success. -/
theorem fail_closed_on_resolution_error :
    ∀ (roots : List (List Seg)) (cwd : List Seg) (p : PyStr),
      resolve cwd p = none →
      is_path_allowed roots cwd p = false ∧
      (∀ op, validate_file_operation roots cwd p op = .error (.outsideRoots p)) ∧
      get_safe_path roots cwd p = none ∧
      (∀ command, findPattern command = none →
        validate_command roots cwd command (some p) =
          .error (.workingDirOutside p)) := by
  intro roots cwd p hres
  have hne : p ≠ [] := by
    intro h
    subst h
    unfold resolve at hres
    rw [if_neg (by decide)] at hres
    exact absurd hres (by simp)
  refine ⟨is_path_allowed_eq_none hres, fun op => vfo_eq_none hres,
    gsp_none hres, fun command hfp => ?_⟩
  rw [vc_none_someWd hfp, if_neg hne,
    if_neg (by rw [is_path_allowed_eq_none hres]; exact Bool.false_ne_true)]

/-- Witness for C7 at the malformed path `"\x00"` (a single NUL byte). -/
theorem fail_closed_on_resolution_error_witness :
    is_path_allowed rootsKU [] [nulChar] = false ∧
    validate_file_operation rootsKU [] [nulChar] (("write").data) =
      .error (.outsideRoots [nulChar]) ∧
    get_safe_path rootsKU [] [nulChar] = none ∧
    validate_command rootsKU [] ("ls").data (some [nulChar]) =
      .error (.workingDirOutside [nulChar]) := by
  obtain ⟨h1, h2, h3, h4⟩ :=
    fail_closed_on_resolution_error rootsKU [] [nulChar] (by decide)
  exact ⟨h1, h2 _, h3, h4 _ (by decide)⟩

/-- C8 counterexample: the working directory `""` *is* supplied and (with
the process working directory at `/`) is not contained in the roots, yet
`validate_command "ls"` is allowed — Python `if working_dir:` skips the
check for the falsy empty string, against the claim's "denies whenever the
supplied working directory is not contained". -/
theorem working_dir_empty_skipped_cex :
    findPattern ("ls").data = none ∧
    is_path_allowed rootsKU [] [] = false ∧
    validate_command rootsKU [] ("ls").data (some []) = .ok () := by
  exact ⟨by decide, by decide, by decide⟩

/-- C8 amended: when a *non-empty* working directory is supplied,
`validate_command` denies with the working-directory-outside-roots reason
whenever it is not contained in the roots; with no working directory (and
no dangerous substring) the command is allowed — in particular
`validate_command "ls -la /home/kasm-user"` with roots `["/home/kasm-user"]`
succeeds. -/
theorem working_dir_check_spec :
    (∀ (roots : List (List Seg)) (cwd : List Seg) (command w : PyStr),
      findPattern command = none → w ≠ [] →
      is_path_allowed roots cwd w = false →
      validate_command roots cwd command (some w) =
        .error (.workingDirOutside w)) ∧
    (∀ (roots : List (List Seg)) (cwd : List Seg) (command : PyStr),
      findPattern command = none →
      validate_command roots cwd command none = .ok ()) ∧
    validate_command rootsKU [] ("ls -la /home/kasm-user").data none = .ok () := by
  refine ⟨?_, fun _ _ _ hp => vc_none_noWd hp, by decide⟩
  intro roots cwd command w hfp hne hf
  rw [vc_none_someWd hfp, if_neg hne,
    if_neg (by rw [hf]; exact Bool.false_ne_true)]

/-- Witness for C8's amended theorem: working directory `/root` with roots
`["/home/kasm-user"]` is denied. -/
theorem working_dir_check_spec_witness :
    validate_command rootsKU [] ("pwd").data (some (("/root").data)) =
      .error (.workingDirOutside (("/root").data)) :=
  working_dir_check_spec.1 rootsKU [] ("pwd").data (("/root").data)
    (by decide) (by decide) (by decide)

/-- C9: `get_safe_path` resolves the path (a relative path is joined onto
the process working directory, the base directory of the call) and returns
the rendered canonical form exactly when containment holds, absence
otherwise; with base directory `/home/kasm-user` and roots
`["/home/kasm-user"]`, `notes.txt` maps to `/home/kasm-user/notes.txt` and
`../../etc/passwd` to absence. -/
theorem get_safe_path_spec :
    (∀ (roots : List (List Seg)) (cwd : List Seg) (p : PyStr) (t : List Seg),
      (∀ a ∈ cwd, segOk a) → resolve cwd p = some t →
      get_safe_path roots cwd p =
        (if roots.any (fun r => decide (r <+: t)) then some (render t) else none)) ∧
    (∀ (roots : List (List Seg)) (cwd : List Seg) (p : PyStr),
      resolve cwd p = none → get_safe_path roots cwd p = none) ∧
    get_safe_path rootsKU (canon0 "/home/kasm-user") ("notes.txt").data =
      some (("/home/kasm-user/notes.txt").data) ∧
    get_safe_path rootsKU (canon0 "/home/kasm-user") ("../../etc/passwd").data =
      none := by
  refine ⟨?_, fun _ _ _ hres => gsp_none hres, by decide, by decide⟩
  intro roots cwd p t hcwd hres
  rw [gsp_some hres,
    is_path_allowed_render roots cwd (resolve_segOk hcwd hres)]

/-- Witness for C9 at the concrete relative path `notes.txt` with base
directory `/home/kasm-user`. -/
theorem get_safe_path_spec_witness :
    get_safe_path rootsKU (canon0 "/home/kasm-user") ("notes.txt").data =
      (if rootsKU.any
          (fun r => decide (r <+: canon0 "/home/kasm-user/notes.txt")) then
        some (render (canon0 "/home/kasm-user/notes.txt"))
       else none) :=
  get_safe_path_spec.1 rootsKU (canon0 "/home/kasm-user") ("notes.txt").data
    (canon0 "/home/kasm-user/notes.txt") (by decide) (by decide)

/-- C10 counterexample: adding the same root a second time leaves the set
unchanged — so the root was *not* newly added — yet `add_root` still
returns `True`: the source returns `True` whenever resolution succeeds and
never reports whether the set grew. -/
theorem add_root_readd_returns_true_cex :
    (add_root (add_root [] [] ("/data").data).1 [] ("/data").data).1 =
      (add_root [] [] ("/data").data).1 ∧
    (add_root (add_root [] [] ("/data").data).1 [] ("/data").data).2 = true := by
  exact ⟨by decide, by decide⟩

/-- C10 amended: `add_root` inserts the resolved root idempotently (the set
is unchanged when the root is already present) and returns `true` whenever
the root string resolves — also on a re-add — returning `false` only when
resolution raises. -/
theorem add_root_spec :
    (∀ (roots : List (List Seg)) (cwd : List Seg) (r : PyStr) (t : List Seg),
      resolve cwd r = some t →
      add_root roots cwd r = (insertRoot roots t, true)) ∧
    (∀ (roots : List (List Seg)) (cwd : List Seg) (r : PyStr),
      resolve cwd r = none → add_root roots cwd r = (roots, false)) ∧
    (∀ (roots : List (List Seg)) (t : List Seg),
      insertRoot (insertRoot roots t) t = insertRoot roots t) := by
  refine ⟨?_, ?_, ?_⟩
  · intro roots cwd r t hres
    unfold add_root; rw [hres]
  · intro roots cwd r hres
    unfold add_root; rw [hres]
  · intro roots t
    unfold insertRoot
    by_cases h : t ∈ roots
    · rw [if_pos h, if_pos h]
    · rw [if_neg h, if_pos (by simp)]

/-- Witness for C10's amended theorem at the concrete root `/data2`. -/
theorem add_root_spec_witness :
    add_root [] [] ("/data2").data = (insertRoot [] (canon0 "/data2"), true) :=
  add_root_spec.1 [] [] ("/data2").data (canon0 "/data2") (by decide)
